import Mathlib

/-!
Verification of the data-cleaning contract of the Apple Music analysis dashboard
(src/apple-music-data-analysis/app.py).

The whole program is a single pandas pipeline: `load_data` reads a CSV into a
dataframe, derives convenience columns, and six pages filter and group the
resulting table.  We embed one row as a structure of optional cells (a `none`
cell is a pandas NaN/NaT null), numeric cells as exact rationals, and each
pandas column operation as a Lean function on those cells, following app.py
line by line.
-/

set_option maxRecDepth 8000

namespace MusicApp

/-! ## Character-level groundwork

pandas `.str.lower()` applies Python lowercasing per character (for the ASCII
letters this is `Char.toLower`) and `.str.strip()` removes leading and trailing
whitespace.  We model both on the character list of a string. -/

theorem toNat_ofNat_of_valid {n : Nat} (h : n.isValidChar) : (Char.ofNat n).toNat = n := by
  rw [Char.ofNat, dif_pos h]; rfl

theorem uint32_le_iff {a b : UInt32} : a ≤ b ↔ a.toNat ≤ b.toNat := by
  rw [UInt32.le_def, BitVec.le_def]
  exact Iff.rfl

theorem char_eq_iff_toNat {c d : Char} : c = d ↔ c.toNat = d.toNat := by
  constructor
  · rintro rfl; rfl
  · intro h
    exact Char.ext (UInt32.toNat.inj h)

theorem isUpper_iff {c : Char} : c.isUpper = true ↔ 65 ≤ c.toNat ∧ c.toNat ≤ 90 := by
  simp only [Char.isUpper, Bool.and_eq_true, decide_eq_true_eq, ge_iff_le, uint32_le_iff]
  constructor
  · rintro ⟨h1, h2⟩; exact ⟨h1, h2⟩
  · rintro ⟨h1, h2⟩; exact ⟨h1, h2⟩

theorem isWhitespace_iff {c : Char} :
    c.isWhitespace = true ↔ c.toNat = 32 ∨ c.toNat = 9 ∨ c.toNat = 13 ∨ c.toNat = 10 := by
  simp only [Char.isWhitespace, Bool.or_eq_true, decide_eq_true_eq, char_eq_iff_toNat]
  rw [show (' ').toNat = 32 from rfl, show ('\t').toNat = 9 from rfl,
    show ('\r').toNat = 13 from rfl, show ('\n').toNat = 10 from rfl]
  tauto

theorem isUpper_toLower (c : Char) : (Char.toLower c).isUpper = false := by
  rw [Char.toLower]
  split
  · rename_i h
    rw [Bool.eq_false_iff]
    intro hU
    have hv : (Char.toNat c + 32).isValidChar := Or.inl (by omega)
    have := isUpper_iff.mp hU
    rw [toNat_ofNat_of_valid hv] at this
    omega
  · rename_i h
    rw [Bool.eq_false_iff]
    intro hU
    exact h (isUpper_iff.mp hU)

theorem isWhitespace_toLower (c : Char) : (Char.toLower c).isWhitespace = c.isWhitespace := by
  rw [Char.toLower]
  split
  · rename_i h
    have hv : (Char.toNat c + 32).isValidChar := Or.inl (by omega)
    have h1 : (Char.ofNat (Char.toNat c + 32)).isWhitespace = false := by
      rw [Bool.eq_false_iff]
      intro hw
      have := isWhitespace_iff.mp hw
      rw [toNat_ofNat_of_valid hv] at this
      omega
    have h2 : c.isWhitespace = false := by
      rw [Bool.eq_false_iff]
      intro hw
      have := isWhitespace_iff.mp hw
      omega
    rw [h1, h2]
  · rfl

/-- Per-character lowercasing, as pandas `.str.lower()` does to each character of
a cell (restricted to the basic latin letters, which is what `Char.toLower`
implements). -/
def lowerChars (l : List Char) : List Char := l.map Char.toLower

/-- Removal of leading and trailing whitespace from a character list, as pandas
`.str.strip()` does to a cell. -/
def stripChars (l : List Char) : List Char :=
  ((l.dropWhile Char.isWhitespace).reverse.dropWhile Char.isWhitespace).reverse

/-- The genre normalization of app.py line 22 on one non-null cell:
`df['primaryGenreName'].str.lower().str.strip()`, lowercase first, then strip. -/
def normalizeGenre (s : String) : String := String.mk (stripChars (lowerChars s.data))

theorem getLast?_of_getLast?_dropWhile {α : Type} {p : α → Bool} {m : List α} {c : α}
    (h : (m.dropWhile p).getLast? = some c) : m.getLast? = some c := by
  induction m with
  | nil => simp at h
  | cons a t ih =>
    rw [List.dropWhile_cons] at h
    by_cases hp : p a = true
    · rw [if_pos hp] at h
      have ht := ih h
      match t, ht with
      | b :: t, ht => rw [List.getLast?_cons_cons]; exact ht
    · rw [if_neg hp] at h
      exact h

theorem head?_dropWhile_eq_some {α : Type} {p : α → Bool} {m : List α} {c : α}
    (h : (m.dropWhile p).head? = some c) : p c = false := by
  have hm := List.head?_dropWhile_not p m
  rw [h] at hm
  exact hm

theorem head?_stripChars {l : List Char} {c : Char}
    (h : (stripChars l).head? = some c) : c.isWhitespace = false := by
  rw [stripChars, List.head?_reverse] at h
  have h2 : ((l.dropWhile Char.isWhitespace).reverse).getLast? = some c :=
    getLast?_of_getLast?_dropWhile h
  rw [List.getLast?_reverse] at h2
  exact head?_dropWhile_eq_some h2

theorem getLast?_stripChars {l : List Char} {c : Char}
    (h : (stripChars l).getLast? = some c) : c.isWhitespace = false := by
  rw [stripChars, List.getLast?_reverse] at h
  exact head?_dropWhile_eq_some h

theorem mem_stripChars {l : List Char} {c : Char} (h : c ∈ stripChars l) : c ∈ l := by
  rw [stripChars] at h
  rw [List.mem_reverse] at h
  have h1 := (List.dropWhile_sublist (l := (l.dropWhile Char.isWhitespace).reverse)
    Char.isWhitespace).subset h
  rw [List.mem_reverse] at h1
  exact (List.dropWhile_sublist Char.isWhitespace).subset h1

theorem stripChars_lowerChars (l : List Char) :
    stripChars (lowerChars l) = lowerChars (stripChars l) := by
  have hws : (fun c => Char.isWhitespace (Char.toLower c)) = Char.isWhitespace := by
    funext c
    exact isWhitespace_toLower c
  rw [stripChars, lowerChars, List.dropWhile_map]
  rw [show Char.isWhitespace ∘ Char.toLower = fun c => Char.isWhitespace (Char.toLower c) from rfl]
  rw [hws, ← List.map_reverse, List.dropWhile_map]
  rw [show Char.isWhitespace ∘ Char.toLower = fun c => Char.isWhitespace (Char.toLower c) from rfl]
  rw [hws, ← List.map_reverse]
  rfl

/-! ## Dates

`pd.to_datetime(df['releaseDate'], errors='coerce')` (app.py line 21) parses each
cell into a timestamp; a cell that does not parse becomes NaT instead of raising.
We model the parser on ISO `YYYY-MM-DD` strings; every other string is
unparseable and yields `none`, which is the behaviour the claims depend on. -/

/-- A parsed calendar date (the date part of a pandas timestamp). -/
structure Date where
  year : Nat
  month : Nat
  day : Nat
deriving DecidableEq

/-- Split a character list at every occurrence of a separator character
(the splitting underlying the ISO date format). -/
def splitOnChar (sep : Char) : List Char → List (List Char)
  | [] => [[]]
  | c :: cs =>
    match splitOnChar sep cs with
    | [] => if c = sep then [[], []] else [[c]]
    | h :: t => if c = sep then [] :: h :: t else (c :: h) :: t

/-- Numeric value of a digit list. -/
def digitsVal (l : List Char) : Nat := l.foldl (fun acc c => acc * 10 + (c.toNat - 48)) 0

/-- A nonempty all-digit list parses to its value; anything else fails. -/
def parseNatDigits (l : List Char) : Option Nat :=
  if l ≠ [] ∧ l.all Char.isDigit = true then some (digitsVal l) else none

/-- One cell of `pd.to_datetime(_, errors='coerce')`: an ISO `YYYY-MM-DD` string
with a plausible month and day parses to a date, every other string coerces to
null (NaT) rather than raising an error. -/
def parseDate (s : String) : Option Date :=
  match splitOnChar '-' s.data with
  | [y, m, d] =>
    match parseNatDigits y, parseNatDigits m, parseNatDigits d with
    | some yn, some mn, some dn =>
      if 1 ≤ mn ∧ mn ≤ 12 ∧ 1 ≤ dn ∧ dn ≤ 31 then some ⟨yn, mn, dn⟩ else none
    | _, _, _ => none
  | _ => none

/-! ## Binary64 arithmetic

The dataframe stores numbers as IEEE binary64 and app.py line 30/31 computes
`trackTimeMillis / 1000` and then `/ 60` with two rounded float64 divisions,
which need not agree with the single rounded division by 60000.  We model a
finite binary64 value as a dyadic rational m·2^e and division as rounding the
exact quotient to a 53-bit significand, to nearest, ties to even.  The model
ignores the exponent limits of the format (overflow, subnormals) and maps
division by zero to zero: the track-time pipeline stays far inside the normal
range and never divides by zero. -/

/-- A finite binary64 floating-point value, the dyadic rational m·2^e. -/
structure F64 where
  m : Int
  e : Int
deriving DecidableEq

/-- The exact rational value denoted by a binary64 number. -/
def F64.toRat (x : F64) : Rat := (x.m : Rat) * (2 : Rat) ^ x.e

/-- A binary64 value holding an integer; integers of magnitude up to 2^53 are
exactly representable. -/
def F64.ofInt (n : Int) : F64 := ⟨n, 0⟩

/-- Bit length of a natural number, by structural recursion on explicit fuel;
the fuel given below covers every quantity a binary64 division produces. -/
def bitlen : Nat → Nat → Nat
  | 0, _ => 0
  | fuel + 1, n => if n = 0 then 0 else bitlen fuel (n / 2) + 1

/-- Bit length with fuel for values up to 2^400. -/
def nbits (n : Nat) : Nat := bitlen 400 n

/-- The nearest integer to a/b (for b positive), ties to even. -/
def roundHalfEvenNat (a b : Nat) : Nat :=
  let f := a / b
  let r := a % b
  if 2 * r < b then f
  else if b < 2 * r then f + 1
  else if f % 2 = 0 then f else f + 1

/-- Divide the positive integers A by B and round the exact quotient to a
53-bit significand, to nearest, ties to even: the result (sig, e) denotes
sig·2^e with 2^52 ≤ sig < 2^53. -/
def divCore (A B : Nat) : Nat × Int :=
  let la : Int := nbits A
  let lb : Int := nbits B
  let s : Int := 53 + lb - la
  let N := A * 2 ^ s.toNat
  let D := B * 2 ^ (-s).toNat
  if D * 2 ^ 53 ≤ N then
    let sig := roundHalfEvenNat N (2 * D)
    if sig = 2 ^ 53 then (2 ^ 52, 2 - s) else (sig, 1 - s)
  else
    let sig := roundHalfEvenNat N D
    if sig = 2 ^ 53 then (2 ^ 52, 1 - s) else (sig, -s)

/-- Binary64 division: round the exact quotient once, to nearest, ties to
even.  A zero dividend gives zero; division by zero lies outside the modelled
pipeline and is also mapped to zero. -/
def fdiv (x y : F64) : F64 :=
  if x.m = 0 ∨ y.m = 0 then ⟨0, 0⟩
  else
    let p := divCore x.m.natAbs y.m.natAbs
    if (0 < x.m ∧ 0 < y.m) ∨ (x.m < 0 ∧ y.m < 0) then ⟨(p.1 : Int), x.e - y.e + p.2⟩
    else ⟨-(p.1 : Int), x.e - y.e + p.2⟩

/-! ## Rows

A raw row is one CSV record as produced by `pd.read_csv` (app.py line 18): any
cell may be null; the trackTimeMillis cell is a binary64 number (the only
column whose claims depend on rounding) and the price cells are embedded as
exact rationals (their claims depend only on null structure).  A cleaned row is
one row of the dataframe returned by `load_data`, with all derived columns. -/

/-- One raw CSV row of the input table (columns of section 6 of the spec). -/
structure RawRow where
  trackName : Option String
  artistName : Option String
  collectionName : Option String
  collectionId : Option Int
  trackNumber : Option Int
  trackCount : Option Int
  primaryGenreName : Option String
  releaseDate : Option String
  contentAdvisoryRating : Option String
  collectionPrice : Option Rat
  trackPrice : Option Rat
  isStreamable : Option String
  trackTimeMillis : Option F64
  trackExplicitness : Option String
deriving DecidableEq

/-- One cleaned row of the dataframe returned by `load_data`. -/
structure Row where
  trackName : Option String
  artistName : Option String
  collectionName : Option String
  collectionId : Option Int
  trackNumber : Option Int
  trackCount : Option Int
  primaryGenreName : Option String
  releaseDate : Option Date
  contentAdvisoryRating : String
  collectionPrice : Option Rat
  trackPrice : Option Rat
  isStreamable : Option Nat
  trackTimeMillis : Option F64
  trackExplicitness : Option String
  trackTimeSec : Option F64
  trackTimeMin : Option F64
  releaseYear : Option Nat
  releaseMonth : Option Nat
  isExplicit : Nat
deriving DecidableEq

/-! ## Column operations of load_data -/

/-- `Series.fillna v` on one cell: a null cell is replaced by the fill value
when that value is itself non-null; filling with NaN (a null fill value) leaves
the cell as it is. -/
def fillna (x : Option Rat) (v : Option Rat) : Option Rat :=
  match v with
  | none => x
  | some m => some (x.getD m)

/-- `Series.median()`: the middle element (for an odd count) or the mean of the
two middle elements (for an even count) of the non-null values in ascending
order; NaN (`none`) when every value is null. -/
def median (col : List (Option Rat)) : Option Rat :=
  let s := (col.filterMap id).insertionSort (fun a b => a ≤ b)
  if s.length = 0 then none
  else if s.length % 2 = 1 then some (s.getD (s.length / 2) 0)
  else some ((s.getD (s.length / 2 - 1) 0 + s.getD (s.length / 2) 0) / 2)

/-- The median fill of app.py lines 25 and 26 applied to a whole column:
`df[c].fillna(df[c].median())`. -/
def fillMedian (col : List (Option Rat)) : List (Option Rat) :=
  col.map (fun x => fillna x (median col))

/-- The dict lookup of `Series.map({'true': 1, 'false': 0})` (app.py line 28) on
one cell: a value outside the dict becomes NaN (`none`). -/
def streamableMap (s : String) : Option Nat :=
  if s = "true" then some 1 else if s = "false" then some 0 else none

/-- The per-row part of `load_data` (app.py lines 21 to 35).  `cpMed` and
`tpMed` are the medians of the raw `collectionPrice` and `trackPrice` columns,
which app.py computes over the whole column before filling. -/
def loadRow (cpMed tpMed : Option Rat) (r : RawRow) : Row :=
  let releaseDate := r.releaseDate.bind parseDate
  let trackTimeSec := r.trackTimeMillis.map (fun x => fdiv x (F64.ofInt 1000))
  { trackName := r.trackName
    artistName := r.artistName
    collectionName := r.collectionName
    collectionId := r.collectionId
    trackNumber := r.trackNumber
    trackCount := r.trackCount
    primaryGenreName := r.primaryGenreName.map normalizeGenre
    releaseDate := releaseDate
    contentAdvisoryRating := r.contentAdvisoryRating.getD "clean"
    collectionPrice := fillna r.collectionPrice cpMed
    trackPrice := fillna r.trackPrice tpMed
    isStreamable := streamableMap (r.isStreamable.getD "true")
    trackTimeMillis := r.trackTimeMillis
    trackExplicitness := r.trackExplicitness
    trackTimeSec := trackTimeSec
    trackTimeMin := trackTimeSec.map (fun x => fdiv x (F64.ofInt 60))
    releaseYear := releaseDate.map Date.year
    releaseMonth := releaseDate.map Date.month
    isExplicit := if r.trackExplicitness = some "explicit" then 1 else 0 }

/-- `load_data` (app.py lines 17 to 37): compute the two column medians over the
raw columns, then clean every row.  The result is the cached dataframe every
page reads. -/
def load_data (raws : List RawRow) : List Row :=
  let cpMed := median (raws.map RawRow.collectionPrice)
  let tpMed := median (raws.map RawRow.trackPrice)
  raws.map (loadRow cpMed tpMed)

/-! ## Page-level consumers named by the claims -/

/-- The Genres page filter `df[df['primaryGenreName'] == selected_genre]`
(app.py line 78); a null genre cell compares unequal to every string. -/
def genreFilter (rows : List Row) (g : String) : List Row :=
  rows.filter (fun r => r.primaryGenreName = some g)

/-- The distinct values of a list in order of first appearance. -/
def uniqueInOrder (l : List String) : List String :=
  l.foldl (fun acc x => if x ∈ acc then acc else acc ++ [x]) []

/-- Sorting relation for `value_counts`: decreasing count. -/
def byCountDesc : (String × Nat) → (String × Nat) → Prop := fun a b => b.2 ≤ a.2

instance : DecidableRel byCountDesc := fun a b => Nat.decLe b.2 a.2

instance : IsTotal (String × Nat) byCountDesc :=
  ⟨fun a b => Nat.le_total b.2 a.2⟩

instance : IsTrans (String × Nat) byCountDesc :=
  ⟨fun _ _ _ hab hbc => Nat.le_trans hbc hab⟩

/-- The non-null values of a column (pandas dropna view used by value_counts). -/
def colVals (col : List (Option String)) : List String := col.filterMap id

/-- `Series.value_counts()` (app.py line 109): the distinct non-null values with
their multiplicities, sorted by decreasing count. -/
def value_counts (col : List (Option String)) : List (String × Nat) :=
  ((uniqueInOrder (colVals col)).map (fun v => (v, (colVals col).count v))).insertionSort
    byCountDesc

/-- The Artists page selector population (app.py lines 109 and 110):
`df['artistName'].value_counts().head(100).index`. -/
def artistOptions (rows : List Row) : List String :=
  ((value_counts (rows.map Row.artistName)).take 100).map Prod.fst

/-- The non-null artist names of the loaded table. -/
def artistVals (rows : List Row) : List String := colVals (rows.map Row.artistName)

/-! ## Shared proof kit -/

theorem mem_load_data {raws : List RawRow} {row : Row} :
    row ∈ load_data raws ↔
      ∃ r ∈ raws,
        row = loadRow (median (raws.map RawRow.collectionPrice))
          (median (raws.map RawRow.trackPrice)) r := by
  simp only [load_data, List.mem_map]
  constructor
  · rintro ⟨r, hr, h⟩; exact ⟨r, hr, h.symm⟩
  · rintro ⟨r, hr, h⟩; exact ⟨r, hr, h.symm⟩

/-- A raw row with every cell null, the base of the concrete witness tables. -/
def blankRaw : RawRow :=
  { trackName := none, artistName := none, collectionName := none, collectionId := none,
    trackNumber := none, trackCount := none, primaryGenreName := none, releaseDate := none,
    contentAdvisoryRating := none, collectionPrice := none, trackPrice := none,
    isStreamable := none, trackTimeMillis := none, trackExplicitness := none }

/-- The cleaned row that `load_data raws` produces from the raw row `r`. -/
def loadedRow (raws : List RawRow) (r : RawRow) : Row :=
  loadRow (median (raws.map RawRow.collectionPrice)) (median (raws.map RawRow.trackPrice)) r

theorem loadedRow_mem {raws : List RawRow} {r : RawRow} (h : r ∈ raws) :
    loadedRow raws r ∈ load_data raws :=
  mem_load_data.mpr ⟨r, h, rfl⟩

/-! ## C1: the isExplicit indicator -/

/-- C1: for every row of the loaded table, the derived column isExplicit is
0 or 1, and it equals 1 exactly when that row's trackExplicitness field is the
string "explicit"; any other value, null included, yields 0. -/
theorem isExplicit_zero_one_iff_explicit (raws : List RawRow) :
    ∀ row ∈ load_data raws,
      (row.isExplicit = 0 ∨ row.isExplicit = 1) ∧
      (row.isExplicit = 1 ↔ row.trackExplicitness = some "explicit") := by
  intro row hrow
  obtain ⟨r, _, rfl⟩ := mem_load_data.mp hrow
  by_cases h : r.trackExplicitness = some "explicit" <;>
    simp [loadRow, h]

def rawC1 : RawRow := { blankRaw with trackExplicitness := some "explicit" }

/-- Witness for C1 at a one-row table whose track is marked explicit. -/
theorem isExplicit_zero_one_iff_explicit_witness :
    ((loadedRow [rawC1] rawC1).isExplicit = 0 ∨ (loadedRow [rawC1] rawC1).isExplicit = 1) ∧
    ((loadedRow [rawC1] rawC1).isExplicit = 1 ↔
      (loadedRow [rawC1] rawC1).trackExplicitness = some "explicit") :=
  isExplicit_zero_one_iff_explicit [rawC1] (loadedRow [rawC1] rawC1)
    (loadedRow_mem (List.mem_singleton_self _))

/-! ## C2: track duration derivations

The claim asserts that the two-step computation trackTimeMillis / 1000 / 60 of
app.py lines 30 and 31 agrees exactly with trackTimeMillis / 60000.  In the
float64 arithmetic the program uses this is false: at trackTimeMillis = 30024
the two rounded divisions produce the value with significand 4507202507072393
at exponent -53, while the direct rounded division by 60000 produces
significand 4507202507072392 at the same exponent (0.5004000000000001 against
0.5004).  Only the exact-arithmetic identity survives. -/

def rawC2 : RawRow := { blankRaw with trackTimeMillis := some (F64.ofInt 30024) }

/-- Counterexample to C2 as stated: on the one-row table with
trackTimeMillis = 30024, the loaded trackTimeMin differs in value from the
binary64 division of trackTimeMillis by 60000. -/
theorem trackTimeMin_direct_div_cex :
    ¬ (∀ raws : List RawRow, ∀ row ∈ load_data raws,
        row.trackTimeMin.map F64.toRat =
          row.trackTimeMillis.map (fun x => F64.toRat (fdiv x (F64.ofInt 60000)))) := by
  intro h
  have hx := h [rawC2] (loadedRow [rawC2] rawC2) (loadedRow_mem (List.mem_singleton_self _))
  have h1 : (loadedRow [rawC2] rawC2).trackTimeMin = some ⟨4507202507072393, -53⟩ := by
    decide
  have h2 : (loadedRow [rawC2] rawC2).trackTimeMillis = some (F64.ofInt 30024) := rfl
  have h3 : fdiv (F64.ofInt 30024) (F64.ofInt 60000) = ⟨4507202507072392, -53⟩ := by
    decide
  rw [h1, h2] at hx
  simp only [Option.map_some'] at hx
  rw [h3] at hx
  have hv := Option.some.inj hx
  simp only [F64.toRat] at hv
  have h2ne : ((2 : Rat) ^ (-53 : Int)) ≠ 0 := zpow_ne_zero _ two_ne_zero
  have hm := mul_right_cancel₀ h2ne hv
  have hmm : (4507202507072393 : Int) = 4507202507072392 := by exact_mod_cast hm
  omega

/-- C2 (amended): for every loaded row, trackTimeSec is the binary64 quotient
trackTimeMillis / 1000 and trackTimeMin is the binary64 quotient
trackTimeSec / 60 (nulls propagating); dividing by 1000 and then by 60 agrees
exactly with dividing by 60000 in exact rational arithmetic, but the two
rounded float64 divisions the program performs need not equal the single
rounded division by 60000. -/
theorem trackTime_derivations_amended :
    (∀ raws : List RawRow, ∀ row ∈ load_data raws,
      row.trackTimeSec = row.trackTimeMillis.map (fun x => fdiv x (F64.ofInt 1000)) ∧
      row.trackTimeMin = row.trackTimeSec.map (fun x => fdiv x (F64.ofInt 60))) ∧
    (∀ q : Rat, q / 1000 / 60 = q / 60000) := by
  constructor
  · intro raws row hrow
    obtain ⟨r, _, rfl⟩ := mem_load_data.mp hrow
    exact ⟨rfl, rfl⟩
  · intro q
    rw [div_div]
    norm_num

/-- Witness for the amended C2 at the one-row table with a 30024 ms track. -/
theorem trackTime_derivations_amended_witness :
    ((loadedRow [rawC2] rawC2).trackTimeSec =
        (loadedRow [rawC2] rawC2).trackTimeMillis.map (fun x => fdiv x (F64.ofInt 1000)) ∧
      (loadedRow [rawC2] rawC2).trackTimeMin =
        (loadedRow [rawC2] rawC2).trackTimeSec.map (fun x => fdiv x (F64.ofInt 60))) ∧
    (30024 : Rat) / 1000 / 60 = (30024 : Rat) / 60000 :=
  ⟨trackTime_derivations_amended.1 [rawC2] (loadedRow [rawC2] rawC2)
      (loadedRow_mem (List.mem_singleton_self _)),
   trackTime_derivations_amended.2 30024⟩

/-! ## C3: genre normalization -/

/-- C3: every non-null loaded primaryGenreName value has no leading or trailing
whitespace and no uppercase character, and any two raw genre values that agree
up to letter case and leading or trailing whitespace normalize to the same
value. -/
theorem genre_normalization :
    (∀ raws : List RawRow, ∀ row ∈ load_data raws, ∀ g : String,
      row.primaryGenreName = some g →
      (∀ c, g.data.head? = some c → c.isWhitespace = false) ∧
      (∀ c, g.data.getLast? = some c → c.isWhitespace = false) ∧
      (∀ c ∈ g.data, c.isUpper = false)) ∧
    (∀ s t : String,
      (stripChars s.data).map Char.toLower = (stripChars t.data).map Char.toLower →
      normalizeGenre s = normalizeGenre t) := by
  constructor
  · intro raws row hrow g hg
    obtain ⟨r, _, rfl⟩ := mem_load_data.mp hrow
    have hg2 : r.primaryGenreName.map normalizeGenre = some g := hg
    cases hr : r.primaryGenreName with
    | none => rw [hr] at hg2; simp at hg2
    | some s =>
      rw [hr] at hg2
      simp only [Option.map_some', Option.some.injEq] at hg2
      subst hg2
      have hdata : (normalizeGenre s).data = stripChars (lowerChars s.data) := rfl
      refine ⟨?_, ?_, ?_⟩
      · intro c hc
        rw [hdata] at hc
        exact head?_stripChars hc
      · intro c hc
        rw [hdata] at hc
        exact getLast?_stripChars hc
      · intro c hc
        rw [hdata] at hc
        have hmem := mem_stripChars hc
        rw [lowerChars, List.mem_map] at hmem
        obtain ⟨a, _, rfl⟩ := hmem
        exact isUpper_toLower a
  · intro s t h
    show String.mk (stripChars (lowerChars s.data)) = String.mk (stripChars (lowerChars t.data))
    rw [stripChars_lowerChars, stripChars_lowerChars]
    show String.mk ((stripChars s.data).map Char.toLower)
      = String.mk ((stripChars t.data).map Char.toLower)
    rw [h]

def rawC3 : RawRow := { blankRaw with primaryGenreName := some " Pop " }

/-- Witness for C3: the loaded genre " Pop " is normalized to "pop", which has
no edge whitespace and no uppercase character, and " Pop " and "POP  " collapse
to one key. -/
theorem genre_normalization_witness :
    ((∀ c, ("pop" : String).data.head? = some c → c.isWhitespace = false) ∧
     (∀ c, ("pop" : String).data.getLast? = some c → c.isWhitespace = false) ∧
     (∀ c ∈ ("pop" : String).data, c.isUpper = false)) ∧
    normalizeGenre " Pop " = normalizeGenre "POP  " :=
  ⟨genre_normalization.1 [rawC3] (loadedRow [rawC3] rawC3)
      (loadedRow_mem (List.mem_singleton_self _)) "pop" (by decide),
   genre_normalization.2 " Pop " "POP  " (by decide)⟩

/-! ## C4: the isStreamable derivation

The claim also asserts that the resulting column is a 0/1 indicator with no
nulls.  That final clause is false on the code: `Series.map` with the dict
sends every value outside the exact strings "true" and "false" to NaN, so a
differently spelled raw value produces a null cell. -/

def rawC4bad : RawRow := { blankRaw with isStreamable := some "True" }

/-- Counterexample to C4 as stated: on the one-row table whose raw isStreamable
cell is the string "True", the loaded isStreamable cell is neither 0 nor 1 (it
is null). -/
theorem isStreamable_no_nulls_cex :
    ¬ (∀ raws : List RawRow, ∀ row ∈ load_data raws,
        row.isStreamable = some 0 ∨ row.isStreamable = some 1) := by
  intro h
  have hx := h [rawC4bad] (loadedRow [rawC4bad] rawC4bad)
    (loadedRow_mem (List.mem_singleton_self _))
  revert hx
  decide

/-- C4 (amended): a null raw isStreamable cell is filled with "true" and mapped
to 1, the strings "true" and "false" map to 1 and 0, and whenever the raw cell
is null, "true" or "false", the loaded cell is 0 or 1 (so the column is a 0/1
indicator with no nulls only on such inputs). -/
theorem isStreamable_mapping_amended :
    ∀ (raws : List RawRow) (i : Nat) (r : RawRow), raws[i]? = some r →
      ∃ row : Row, (load_data raws)[i]? = some row ∧
        (r.isStreamable = none → row.isStreamable = some 1) ∧
        (r.isStreamable = some "true" → row.isStreamable = some 1) ∧
        (r.isStreamable = some "false" → row.isStreamable = some 0) ∧
        ((r.isStreamable = none ∨ r.isStreamable = some "true" ∨
            r.isStreamable = some "false") →
          (row.isStreamable = some 0 ∨ row.isStreamable = some 1)) := by
  intro raws i r hi
  refine ⟨loadedRow raws r, ?_, ?_, ?_, ?_, ?_⟩
  · show (raws.map _)[i]? = _
    rw [List.getElem?_map, hi, Option.map_some']
    rfl
  · intro h
    simp [loadedRow, loadRow, h, streamableMap]
  · intro h
    simp [loadedRow, loadRow, h, streamableMap]
  · intro h
    simp [loadedRow, loadRow, h, streamableMap]
  · rintro (h | h | h) <;> simp [loadedRow, loadRow, h, streamableMap]

/-- Witness for the amended C4 at a one-row table with a null raw isStreamable
cell. -/
theorem isStreamable_mapping_amended_witness :
    ∃ row : Row, (load_data [blankRaw])[0]? = some row ∧
      (blankRaw.isStreamable = none → row.isStreamable = some 1) ∧
      (blankRaw.isStreamable = some "true" → row.isStreamable = some 1) ∧
      (blankRaw.isStreamable = some "false" → row.isStreamable = some 0) ∧
      ((blankRaw.isStreamable = none ∨ blankRaw.isStreamable = some "true" ∨
          blankRaw.isStreamable = some "false") →
        (row.isStreamable = some 0 ∨ row.isStreamable = some 1)) :=
  isStreamable_mapping_amended [blankRaw] 0 blankRaw rfl

/-! ## C5: release date derivations -/

/-- C5: releaseYear and releaseMonth are the year and month of the parsed
releaseDate, they are null exactly when the parsed releaseDate is null, and an
unparseable release-date string makes that row's releaseDate, releaseYear and
releaseMonth null while the load of the whole table still succeeds. -/
theorem release_fields_null_iff :
    ∀ (raws : List RawRow) (i : Nat) (r : RawRow), raws[i]? = some r →
      ∃ row : Row, (load_data raws)[i]? = some row ∧
        row.releaseYear = row.releaseDate.map Date.year ∧
        row.releaseMonth = row.releaseDate.map Date.month ∧
        ((row.releaseYear = none) ↔ (row.releaseDate = none)) ∧
        ((row.releaseMonth = none) ↔ (row.releaseDate = none)) ∧
        (∀ s, r.releaseDate = some s → parseDate s = none →
          row.releaseDate = none ∧ row.releaseYear = none ∧ row.releaseMonth = none) := by
  intro raws i r hi
  refine ⟨loadedRow raws r, ?_, rfl, rfl, ?_, ?_, ?_⟩
  · show (raws.map _)[i]? = _
    rw [List.getElem?_map, hi, Option.map_some']
    rfl
  · cases h : r.releaseDate.bind parseDate <;> simp [loadedRow, loadRow, h]
  · cases h : r.releaseDate.bind parseDate <;> simp [loadedRow, loadRow, h]
  · intro s hs hp
    refine ⟨?_, ?_, ?_⟩ <;> simp [loadedRow, loadRow, hs, hp]

def rawC5 : RawRow := { blankRaw with releaseDate := some "notadate" }

/-- Witness for C5 at a one-row table whose release date does not parse. -/
theorem release_fields_null_iff_witness :
    ∃ row : Row, (load_data [rawC5])[0]? = some row ∧
      row.releaseYear = row.releaseDate.map Date.year ∧
      row.releaseMonth = row.releaseDate.map Date.month ∧
      ((row.releaseYear = none) ↔ (row.releaseDate = none)) ∧
      ((row.releaseMonth = none) ↔ (row.releaseDate = none)) ∧
      (∀ s, rawC5.releaseDate = some s → parseDate s = none →
        row.releaseDate = none ∧ row.releaseYear = none ∧ row.releaseMonth = none) :=
  release_fields_null_iff [rawC5] 0 rawC5 rfl

/-! ## C9: trichotomy of the loaded isStreamable column -/

/-- C9: the loaded isStreamable cell is always null, 0 or 1, and it is null
exactly when the filled raw value is neither the string "true" nor the string
"false". -/
theorem isStreamable_trichotomy :
    ∀ (raws : List RawRow) (i : Nat) (r : RawRow), raws[i]? = some r →
      ∃ row : Row, (load_data raws)[i]? = some row ∧
        (row.isStreamable = none ∨ row.isStreamable = some 0 ∨
          row.isStreamable = some 1) ∧
        (row.isStreamable = none ↔
          (r.isStreamable.getD "true" ≠ "true" ∧ r.isStreamable.getD "true" ≠ "false")) := by
  intro raws i r hi
  refine ⟨loadedRow raws r, ?_, ?_, ?_⟩
  · show (raws.map _)[i]? = _
    rw [List.getElem?_map, hi, Option.map_some']
    rfl
  · by_cases h1 : r.isStreamable.getD "true" = "true"
    · simp [loadedRow, loadRow, streamableMap, h1]
    · by_cases h2 : r.isStreamable.getD "true" = "false" <;>
        simp [loadedRow, loadRow, streamableMap, h1, h2]
  · by_cases h1 : r.isStreamable.getD "true" = "true"
    · simp [loadedRow, loadRow, streamableMap, h1]
    · by_cases h2 : r.isStreamable.getD "true" = "false" <;>
        simp [loadedRow, loadRow, streamableMap, h1, h2]

def rawC9 : RawRow := { blankRaw with isStreamable := some "yes" }

/-- Witness for C9 at a one-row table whose raw isStreamable cell is the string
"yes", outside the mapping dict. -/
theorem isStreamable_trichotomy_witness :
    ∃ row : Row, (load_data [rawC9])[0]? = some row ∧
      (row.isStreamable = none ∨ row.isStreamable = some 0 ∨
        row.isStreamable = some 1) ∧
      (row.isStreamable = none ↔
        (rawC9.isStreamable.getD "true" ≠ "true" ∧
          rawC9.isStreamable.getD "true" ≠ "false")) :=
  isStreamable_trichotomy [rawC9] 0 rawC9 rfl

/-! ## C6 and C7: the median fill -/

theorem median_of_nil_vals {col : List (Option Rat)} (h : col.filterMap id = []) :
    median col = none := by
  simp [median, h]

theorem median_isSome_of_vals_ne_nil {col : List (Option Rat)}
    (h : col.filterMap id ≠ []) : (median col).isSome = true := by
  have hlen : ((col.filterMap id).insertionSort (fun a b => a ≤ b)).length
      = (col.filterMap id).length := List.length_insertionSort _ _
  have hne : (col.filterMap id).length ≠ 0 := by
    intro h0
    exact h (List.length_eq_zero.mp h0)
  rw [median]
  split_ifs with h1 h2
  · rw [hlen] at h1
    exact absurd h1 hne
  · rfl
  · rfl

theorem fillMedian_of_no_nulls {col : List (Option Rat)} (h : ∀ x ∈ col, x ≠ none) :
    fillMedian col = col := by
  rw [fillMedian]
  cases hv : median col with
  | none =>
    have : ∀ x ∈ col, fillna x none = x := by
      intro x _
      rfl
    rw [List.map_congr_left this, List.map_id']
  | some m =>
    have : ∀ x ∈ col, fillna x (some m) = x := by
      intro x hx
      cases hxv : x with
      | none => exact absurd hxv (h x hx)
      | some y => rfl
    rw [List.map_congr_left this, List.map_id']

theorem fillMedian_idem (col : List (Option Rat)) :
    fillMedian (fillMedian col) = fillMedian col := by
  by_cases h : col.filterMap id = []
  · have hm := median_of_nil_vals h
    have hcol : fillMedian col = col := by
      have : ∀ x ∈ col, fillna x (median col) = x := by
        intro x _
        rw [hm]
        rfl
      rw [fillMedian, List.map_congr_left this, List.map_id']
    simp only [hcol]
  · obtain ⟨m, hm⟩ := Option.isSome_iff_exists.mp (median_isSome_of_vals_ne_nil h)
    apply fillMedian_of_no_nulls
    intro x hx
    rw [fillMedian] at hx
    obtain ⟨y, _, rfl⟩ := List.mem_map.mp hx
    rw [hm]
    intro hc
    exact Option.noConfusion hc

theorem load_collectionPrice_col (raws : List RawRow) :
    (load_data raws).map Row.collectionPrice = fillMedian (raws.map RawRow.collectionPrice) := by
  rw [load_data, fillMedian, List.map_map, List.map_map]
  apply List.map_congr_left
  intro r _
  rfl

theorem load_trackPrice_col (raws : List RawRow) :
    (load_data raws).map Row.trackPrice = fillMedian (raws.map RawRow.trackPrice) := by
  rw [load_data, fillMedian, List.map_map, List.map_map]
  apply List.map_congr_left
  intro r _
  rfl

/-- C6: filling the nulls of a price column with the median of its non-null
values is idempotent, both as a general fact about the fill and on the two
columns load_data actually fills: re-running the fill on the loaded
collectionPrice and trackPrice columns changes nothing. -/
theorem median_fill_idempotent :
    (∀ col : List (Option Rat), fillMedian (fillMedian col) = fillMedian col) ∧
    (∀ raws : List RawRow,
      fillMedian ((load_data raws).map Row.collectionPrice) =
        (load_data raws).map Row.collectionPrice ∧
      fillMedian ((load_data raws).map Row.trackPrice) =
        (load_data raws).map Row.trackPrice) := by
  refine ⟨fillMedian_idem, ?_⟩
  intro raws
  rw [load_collectionPrice_col, load_trackPrice_col]
  exact ⟨fillMedian_idem _, fillMedian_idem _⟩

/-- C7: when a price column is entirely null its median is undefined (NaN), the
fill is a no-op, and the column is still entirely null after loading; the load
itself still produces a row for every raw row. -/
theorem all_null_price_column_preserved :
    ∀ raws : List RawRow,
      ((∀ r ∈ raws, r.collectionPrice = none) →
        median (raws.map RawRow.collectionPrice) = none ∧
        (load_data raws).length = raws.length ∧
        ∀ row ∈ load_data raws, row.collectionPrice = none) ∧
      ((∀ r ∈ raws, r.trackPrice = none) →
        median (raws.map RawRow.trackPrice) = none ∧
        (load_data raws).length = raws.length ∧
        ∀ row ∈ load_data raws, row.trackPrice = none) := by
  intro raws
  constructor
  · intro h
    have hnil : (raws.map RawRow.collectionPrice).filterMap id = [] := by
      rw [List.filterMap_eq_nil_iff]
      intro a ha
      obtain ⟨r, hr, rfl⟩ := List.mem_map.mp ha
      exact h r hr
    have hm := median_of_nil_vals hnil
    refine ⟨hm, by simp [load_data], ?_⟩
    intro row hrow
    obtain ⟨r, hr, rfl⟩ := mem_load_data.mp hrow
    show fillna r.collectionPrice (median (raws.map RawRow.collectionPrice)) = none
    rw [hm, h r hr]
    rfl
  · intro h
    have hnil : (raws.map RawRow.trackPrice).filterMap id = [] := by
      rw [List.filterMap_eq_nil_iff]
      intro a ha
      obtain ⟨r, hr, rfl⟩ := List.mem_map.mp ha
      exact h r hr
    have hm := median_of_nil_vals hnil
    refine ⟨hm, by simp [load_data], ?_⟩
    intro row hrow
    obtain ⟨r, hr, rfl⟩ := mem_load_data.mp hrow
    show fillna r.trackPrice (median (raws.map RawRow.trackPrice)) = none
    rw [hm, h r hr]
    rfl

/-- Witness for C7 at a one-row table with both price cells null. -/
theorem all_null_price_column_preserved_witness :
    (median ([blankRaw].map RawRow.collectionPrice) = none ∧
      (load_data [blankRaw]).length = [blankRaw].length ∧
      ∀ row ∈ load_data [blankRaw], row.collectionPrice = none) ∧
    (median ([blankRaw].map RawRow.trackPrice) = none ∧
      (load_data [blankRaw]).length = [blankRaw].length ∧
      ∀ row ∈ load_data [blankRaw], row.trackPrice = none) :=
  ⟨(all_null_price_column_preserved [blankRaw]).1 (by decide),
   (all_null_price_column_preserved [blankRaw]).2 (by decide)⟩

/-! ## C8: the Genres page filter -/

/-- C8: for every loaded table and selected genre value, the genre filter keeps
exactly the rows whose normalized primaryGenreName equals the selected value,
and keeps them as a sublist of the table, that is, in original row order. -/
theorem genre_filter_exact_ordered :
    ∀ (raws : List RawRow) (g : String),
      List.Sublist (genreFilter (load_data raws) g) (load_data raws) ∧
      ∀ row : Row, row ∈ genreFilter (load_data raws) g ↔
        (row ∈ load_data raws ∧ row.primaryGenreName = some g) := by
  intro raws g
  refine ⟨List.filter_sublist _, ?_⟩
  intro row
  rw [genreFilter, List.mem_filter]
  simp

def rawC8 : RawRow := { blankRaw with primaryGenreName := some "Pop" }

/-- Witness for C8 at a one-row table and the selected genre "pop". -/
theorem genre_filter_exact_ordered_witness :
    List.Sublist (genreFilter (load_data [rawC8]) "pop") (load_data [rawC8]) ∧
    ∀ row : Row, row ∈ genreFilter (load_data [rawC8]) "pop" ↔
      (row ∈ load_data [rawC8] ∧ row.primaryGenreName = some "pop") :=
  genre_filter_exact_ordered [rawC8] "pop"

/-! ## C10: the Artists page selector -/

theorem mem_foldl_uniqueInOrder (l : List String) :
    ∀ (acc : List String) (x : String),
      x ∈ l.foldl (fun acc x => if x ∈ acc then acc else acc ++ [x]) acc ↔
        x ∈ acc ∨ x ∈ l := by
  induction l with
  | nil => intro acc x; simp
  | cons a t ih =>
    intro acc x
    rw [List.foldl_cons, ih]
    by_cases ha : a ∈ acc
    · rw [if_pos ha]
      constructor
      · rintro (h | h)
        · exact Or.inl h
        · exact Or.inr (List.mem_cons_of_mem a h)
      · rintro (h | h)
        · exact Or.inl h
        · rcases List.mem_cons.mp h with rfl | h
          · exact Or.inl ha
          · exact Or.inr h
    · rw [if_neg ha]
      constructor
      · rintro (h | h)
        · rcases List.mem_append.mp h with h | h
          · exact Or.inl h
          · rw [List.mem_singleton] at h
            exact Or.inr (h ▸ List.mem_cons_self a t)
        · exact Or.inr (List.mem_cons_of_mem a h)
      · rintro (h | h)
        · exact Or.inl (List.mem_append.mpr (Or.inl h))
        · rcases List.mem_cons.mp h with rfl | h
          · exact Or.inl (List.mem_append.mpr (Or.inr (List.mem_singleton_self x)))
          · exact Or.inr h

theorem mem_uniqueInOrder {l : List String} {x : String} :
    x ∈ uniqueInOrder l ↔ x ∈ l := by
  rw [uniqueInOrder, mem_foldl_uniqueInOrder]
  simp

theorem nodup_foldl_uniqueInOrder (l : List String) :
    ∀ acc : List String, acc.Nodup →
      (l.foldl (fun acc x => if x ∈ acc then acc else acc ++ [x]) acc).Nodup := by
  induction l with
  | nil => intro acc h; exact h
  | cons a t ih =>
    intro acc h
    rw [List.foldl_cons]
    by_cases ha : a ∈ acc
    · rw [if_pos ha]
      exact ih acc h
    · rw [if_neg ha]
      apply ih
      rw [List.nodup_append]
      refine ⟨h, List.nodup_singleton a, ?_⟩
      intro x hx hxa
      rw [List.mem_singleton] at hxa
      exact ha (hxa ▸ hx)

theorem nodup_uniqueInOrder (l : List String) : (uniqueInOrder l).Nodup :=
  nodup_foldl_uniqueInOrder l [] List.nodup_nil

theorem mem_value_counts {col : List (Option String)} {p : String × Nat} :
    p ∈ value_counts col ↔ p.1 ∈ colVals col ∧ p.2 = (colVals col).count p.1 := by
  rw [value_counts, List.mem_insertionSort, List.mem_map]
  constructor
  · rintro ⟨v, hv, rfl⟩
    exact ⟨mem_uniqueInOrder.mp hv, rfl⟩
  · rintro ⟨h1, h2⟩
    exact ⟨p.1, mem_uniqueInOrder.mpr h1, by rw [← h2]⟩

theorem sorted_value_counts (col : List (Option String)) :
    List.Pairwise byCountDesc (value_counts col) :=
  List.sorted_insertionSort byCountDesc _

/-- C10: the Artists page selection widget offers at most 100 names, every
offered name is an artist of the table, every offered name is at least as
frequent as any non-offered artist, and a table with more than 100 distinct
artist names always has an artist that can never be selected. -/
theorem artist_selector_top100 :
    ∀ rows : List Row,
      (artistOptions rows).length ≤ 100 ∧
      (∀ a ∈ artistOptions rows, a ∈ artistVals rows) ∧
      (∀ a ∈ artistOptions rows, ∀ b ∈ artistVals rows, b ∉ artistOptions rows →
        (artistVals rows).count b ≤ (artistVals rows).count a) ∧
      (100 < (uniqueInOrder (artistVals rows)).length →
        ∃ b ∈ artistVals rows, b ∉ artistOptions rows) := by
  intro rows
  have hopt : artistOptions rows
      = ((value_counts (rows.map Row.artistName)).take 100).map Prod.fst := rfl
  have hvals : colVals (rows.map Row.artistName) = artistVals rows := rfl
  refine ⟨?_, ?_, ?_, ?_⟩
  · rw [hopt, List.length_map, List.length_take]
    exact Nat.min_le_left _ _
  · intro a ha
    rw [hopt, List.mem_map] at ha
    obtain ⟨p, hp, rfl⟩ := ha
    have hpS := List.take_subset _ _ hp
    exact (mem_value_counts.mp hpS).1
  · intro a ha b hb hbno
    rw [hopt, List.mem_map] at ha
    obtain ⟨p, hpTake, rfl⟩ := ha
    have hpS := List.take_subset _ _ hpTake
    have hpCount := (mem_value_counts.mp hpS).2
    have hqS : (b, (artistVals rows).count b) ∈ value_counts (rows.map Row.artistName) :=
      mem_value_counts.mpr ⟨hb, rfl⟩
    have hsplit := List.take_append_drop 100 (value_counts (rows.map Row.artistName))
    have hq : (b, (artistVals rows).count b)
        ∈ (value_counts (rows.map Row.artistName)).drop 100 := by
      rcases List.mem_append.mp (by rw [hsplit]; exact hqS) with h | h
      · exfalso
        apply hbno
        rw [hopt, List.mem_map]
        exact ⟨(b, (artistVals rows).count b), h, rfl⟩
      · exact h
    have hpair := sorted_value_counts (rows.map Row.artistName)
    rw [← hsplit, List.pairwise_append] at hpair
    have := hpair.2.2 p hpTake (b, (artistVals rows).count b) hq
    rw [byCountDesc] at this
    have hpc2 : p.2 = (artistVals rows).count p.1 := hpCount
    rw [← hpc2]
    exact this
  · intro hbig
    by_contra hno
    push_neg at hno
    have hsub : uniqueInOrder (artistVals rows) ⊆ artistOptions rows := by
      intro x hx
      exact hno x (mem_uniqueInOrder.mp hx)
    have hnodup := nodup_uniqueInOrder (artistVals rows)
    have hcard1 : (uniqueInOrder (artistVals rows)).toFinset.card
        = (uniqueInOrder (artistVals rows)).length :=
      List.toFinset_card_of_nodup hnodup
    have hcard2 : (uniqueInOrder (artistVals rows)).toFinset
        ⊆ (artistOptions rows).toFinset := by
      intro x hx
      rw [List.mem_toFinset] at hx ⊢
      exact hsub hx
    have hcard3 := Finset.card_le_card hcard2
    have hcard4 := List.toFinset_card_le (artistOptions rows)
    have hlen : (artistOptions rows).length ≤ 100 := by
      rw [hopt, List.length_map, List.length_take]
      exact Nat.min_le_left _ _
    omega

/-- A cleaned row with every optional cell null, the base of the concrete
101-artist table. -/
def blankRow : Row :=
  { trackName := none, artistName := none, collectionName := none, collectionId := none,
    trackNumber := none, trackCount := none, primaryGenreName := none, releaseDate := none,
    contentAdvisoryRating := "clean", collectionPrice := none, trackPrice := none,
    isStreamable := some 1, trackTimeMillis := none, trackExplicitness := none,
    trackTimeSec := none, trackTimeMin := none, releaseYear := none, releaseMonth := none,
    isExplicit := 0 }

/-- A loaded table with 101 rows by 101 distinct artists. -/
def c10Table : List Row :=
  (List.range 101).map
    (fun i => { blankRow with artistName := some (String.mk (Nat.toDigits 10 i)) })

/-- Witness for C10: the 101-artist table has an artist that the selector never
offers. -/
theorem artist_selector_top100_witness :
    ∃ b ∈ artistVals c10Table, b ∉ artistOptions c10Table :=
  (artist_selector_top100 c10Table).2.2.2 (by decide)

end MusicApp
